import Mathlib

/-!
Shallow embedding of the AIBTrk bounded-collection and camera-acquisition core
(`src/brain/util/obj/base_list.py`, `src/brain/util/obj/base_dict.py`,
`src/brain/util/cv/cam/cv_cam.py`), together with theorems settling the
specification claims about it.

Python exceptions are embedded as explicit `Except PyError` results; mutation
is embedded as explicit state passing.  Where a Python operation raises after
having already mutated part of the state, the embedding returns the state at
the raise point alongside the error.
-/

/-- The Python exception kinds raised by the embedded code. -/
inductive PyError where
  | IndexError
  | ValueError
  | TypeError
  | RuntimeError
  | KeyError
  | StopIteration
  deriving DecidableEq

/-- Python list indexing `xs[i]`: a negative index `i` addresses `xs[len+i]`;
an out-of-range index raises `IndexError`. -/
def pyGet {T : Type} (xs : List T) (i : Int) : Except PyError T :=
  let n : Int := xs.length
  let j : Int := if i < 0 then i + n else i
  if h : 0 ≤ j ∧ j < n then
    .ok (xs.get ⟨j.toNat, by
      have h1 := h.1
      have h2 := h.2
      omega⟩)
  else
    .error .IndexError

/-- Python list element assignment `xs[i] = x`, with the same index
normalization and bounds check as `pyGet`. -/
def pySet {T : Type} (xs : List T) (i : Int) (x : T) : Except PyError (List T) :=
  let n : Int := xs.length
  let j : Int := if i < 0 then i + n else i
  if 0 ≤ j ∧ j < n then
    .ok (xs.set j.toNat x)
  else
    .error .IndexError

/-- Python `str.lower()` (character-wise ASCII case mapping, written on the
character list so that it computes by reduction). -/
def pyLower (s : String) : String := ⟨s.data.map Char.toLower⟩

/-- Python `str.upper()` (character-wise ASCII case mapping). -/
def pyUpper (s : String) : String := ⟨s.data.map Char.toUpper⟩

/-- Python `str.replace(" ", "_")` as used by the name setters. -/
def pyUnderscore (s : String) : String :=
  ⟨s.data.map (fun c => if c = ' ' then '_' else c)⟩

/-- Embedding of `BaseList` (`src/brain/util/obj/base_list.py`): a name, a
maximum size (`-1` meaning unbounded), and the underlying item list. -/
structure BaseList (T : Type) where
  name : String
  max_size : Int
  items : List T
  deriving DecidableEq

namespace BaseList

/-- `BaseList.__getitem__`: plain Python list indexing on `_items`. -/
def get_item {T : Type} (l : BaseList T) (a_index : Int) : Except PyError T :=
  pyGet l.items a_index

/-- `BaseList.__setitem__`: plain Python list element assignment on `_items`. -/
def set_item {T : Type} (l : BaseList T) (a_index : Int) (a_item : T) :
    Except PyError (BaseList T) :=
  match pySet l.items a_index a_item with
  | .ok xs => .ok { l with items := xs }
  | .error e => .error e

/-- `BaseList._append_item`: when the list is bounded and full, evict per the
removal strategy (`"first"` pops index 0, `"last"` pops the final index, any
other token raises `ValueError`) before appending.  `pop` on an empty list
raises `IndexError`.  On every error path the list is unchanged at the raise
point. -/
def append_item {T : Type} (l : BaseList T) (a_item : T)
    (a_removal_strategy : String) : Except PyError (BaseList T) :=
  if l.max_size ≠ -1 ∧ (l.items.length : Int) ≥ l.max_size then
    if pyLower a_removal_strategy = "first" then
      match l.items with
      | [] => .error .IndexError
      | _ :: rest => .ok { l with items := rest ++ [a_item] }
    else if pyLower a_removal_strategy = "last" then
      match l.items with
      | [] => .error .IndexError
      | _ :: _ => .ok { l with items := l.items.dropLast ++ [a_item] }
    else
      .error .ValueError
  else
    .ok { l with items := l.items ++ [a_item] }

/-- `BaseList.append` on a batch: items are appended one by one; an exception
aborts the batch, leaving the items appended so far in place. -/
def append_seq {T : Type} (l : BaseList T) (xs : List T)
    (a_removal_strategy : String) : BaseList T × Option PyError :=
  match xs with
  | [] => (l, none)
  | x :: rest =>
    match l.append_item x a_removal_strategy with
    | .ok l' => l'.append_seq rest a_removal_strategy
    | .error e => (l, some e)

/-- `BaseList.__init__`: store the (upper-cased, space-mangled) name and the
maximum size, then batch-append the initial items with the default `"first"`
strategy; an exception during that batch makes construction fail. -/
def init {T : Type} (a_name : String) (a_max_size : Int)
    (a_items : Option (List T)) : Except PyError (BaseList T) :=
  let l : BaseList T := ⟨pyUnderscore (pyUpper a_name), a_max_size, []⟩
  match a_items with
  | none => .ok l
  | some xs =>
    match l.append_seq xs "first" with
    | (l', none) => .ok l'
    | (_, some e) => .error e

end BaseList

/-- One append operation against a `BaseList`: a single item or a batch,
each with its removal-strategy token. -/
inductive LOp (T : Type) where
  | one (x : T) (strategy : String)
  | batch (xs : List T) (strategy : String)

/-- Run a sequence of append operations, stopping at the first exception but
keeping the state reached at that point. -/
def BaseList.run_ops {T : Type} (l : BaseList T) :
    List (LOp T) → BaseList T × Option PyError
  | [] => (l, none)
  | .one x s :: ops =>
    match l.append_item x s with
    | .ok l' => l'.run_ops ops
    | .error e => (l, some e)
  | .batch xs s :: ops =>
    match l.append_seq xs s with
    | (l', none) => l'.run_ops ops
    | (l', some e) => (l', some e)

/-- Python insertion-ordered dict assignment `d[k] = v` on an association
list: an existing key keeps its position and gets the new value; a new key is
appended at the end. -/
def dict_set {K V : Type} [DecidableEq K] :
    List (K × V) → K → V → List (K × V)
  | [], k, v => [(k, v)]
  | (k', v') :: rest, k, v =>
    if k' = k then (k', v) :: rest else (k', v') :: dict_set rest k v

/-- Python `k in d` on the association list. -/
def dict_contains {K V : Type} [DecidableEq K] (xs : List (K × V)) (k : K) :
    Bool :=
  xs.any (fun p => p.1 = k)

/-- Embedding of `BaseDict` (`src/brain/util/obj/base_dict.py`): a name, a
maximum size (`-1` meaning unbounded), and an insertion-ordered association
list standing for the Python dict. -/
structure BaseDict (K V : Type) where
  name : String
  max_size : Int
  items : List (K × V)
  deriving DecidableEq

namespace BaseDict

/-- `BaseDict._append_item`: when the dict is bounded and full, evict per the
removal strategy before assigning the pair.  `"first"` pops the first inserted
key (`next(iter(d))`, raising `StopIteration` on an empty dict); `"last"` is
`popitem()` (raising `KeyError` on an empty dict); any other token raises
`ValueError`.  On every error path the dict is unchanged at the raise point. -/
def append_item {K V : Type} [DecidableEq K] (d : BaseDict K V) (a_key : K)
    (a_value : V) (a_removal_strategy : String) :
    Except PyError (BaseDict K V) :=
  if d.max_size ≠ -1 ∧ (d.items.length : Int) ≥ d.max_size then
    if pyLower a_removal_strategy = "first" then
      match d.items with
      | [] => .error .StopIteration
      | _ :: rest => .ok { d with items := dict_set rest a_key a_value }
    else if pyLower a_removal_strategy = "last" then
      match d.items with
      | [] => .error .KeyError
      | _ :: _ => .ok { d with items := dict_set d.items.dropLast a_key a_value }
    else
      .error .ValueError
  else
    .ok { d with items := dict_set d.items a_key a_value }

/-- `BaseDict.__setitem__`: an existing key (or an unbounded dict) is assigned
directly; a new key on a bounded dict with positive capacity goes through the
append path (default `"first"` strategy); otherwise an `IndexError` is
raised. -/
def set_item {K V : Type} [DecidableEq K] (d : BaseDict K V) (a_key : K)
    (a_value : V) : Except PyError (BaseDict K V) :=
  if dict_contains d.items a_key ∨ d.max_size = -1 then
    .ok { d with items := dict_set d.items a_key a_value }
  else if ¬ dict_contains d.items a_key ∧ d.max_size > 0 then
    d.append_item a_key a_value "first"
  else
    .error .IndexError

/-- `BaseDict.append` on zipped key/value batches: pairs are appended one by
one; an exception aborts the batch, leaving the pairs appended so far in
place. -/
def append_seq {K V : Type} [DecidableEq K] (d : BaseDict K V)
    (xs : List (K × V)) (a_removal_strategy : String) :
    BaseDict K V × Option PyError :=
  match xs with
  | [] => (d, none)
  | (k, v) :: rest =>
    match d.append_item k v a_removal_strategy with
    | .ok d' => d'.append_seq rest a_removal_strategy
    | .error e => (d, some e)

/-- `BaseDict.append` called with two lists: mismatched lengths raise
`RuntimeError` before anything is appended; otherwise the zipped pairs are
appended one by one. -/
def append_lists {K V : Type} [DecidableEq K] (d : BaseDict K V)
    (ks : List K) (vs : List V) (a_removal_strategy : String) :
    BaseDict K V × Option PyError :=
  if ks.length ≠ vs.length then (d, some .RuntimeError)
  else d.append_seq (ks.zip vs) a_removal_strategy

/-- `BaseDict.__init__`: store the (upper-cased, space-mangled) name and the
maximum size, then batch-append the initial keys/values with the default
`"first"` strategy; an exception during that batch makes construction fail. -/
def init {K V : Type} [DecidableEq K] (a_name : String) (a_max_size : Int)
    (a_keys : Option (List K)) (a_values : Option (List V)) :
    Except PyError (BaseDict K V) :=
  let d : BaseDict K V := ⟨pyUnderscore (pyUpper a_name), a_max_size, []⟩
  match a_keys, a_values with
  | some ks, some vs =>
    match d.append_lists ks vs "first" with
    | (d', none) => .ok d'
    | (_, some e) => .error e
  | _, _ => .ok d

end BaseDict

/-- One append operation against a `BaseDict`: a single pair or a key/value
list batch, each with its removal-strategy token. -/
inductive DOp (K V : Type) where
  | one (k : K) (v : V) (strategy : String)
  | batch (ks : List K) (vs : List V) (strategy : String)

/-- Run a sequence of dict append operations, stopping at the first exception
but keeping the state reached at that point. -/
def BaseDict.run_ops {K V : Type} [DecidableEq K] (d : BaseDict K V) :
    List (DOp K V) → BaseDict K V × Option PyError
  | [] => (d, none)
  | .one k v s :: ops =>
    match d.append_item k v s with
    | .ok d' => d'.run_ops ops
    | .error e => (d, some e)
  | .batch ks vs s :: ops =>
    match d.append_lists ks vs s with
    | (d', none) => d'.run_ops ops
    | (d', some e) => (d', some e)

/-- Modelled from the spec: `Frame2D` (`brain/util/cv/vid`, not under `src/`) —
spec §3 Frame: `{sequence_id (monotonic, per controller), source_id (opaque
identifier of the owning camera), pixel_buffer (raw numeric array)}`, created
only by the controller's read path.  The pixel buffer is abstracted to a
numeric token. -/
structure Frame2D where
  sequence_id : Nat
  source_id : Nat
  pixel_buffer : Nat
  deriving DecidableEq

/-- Deterministic oracle for the capture environment: the outcome of the
capture's direct `read` per read call (`none` embeds a raised exception),
whether the k-th `initialize_video` attempt leaves the capture opened, the
wall-clock time that attempt consumes, and the probe read's outcome after the
k-th attempt. -/
structure CamEnv where
  directRead : Nat → Option (Bool × Option Nat)
  openOk : Nat → Bool
  openDur : Nat → Nat
  probeRead : Nat → Bool × Option Nat

/-- Observable world state threaded through the camera operations: the wall
clock, the number of direct read calls so far, the number of
`initialize_video` open attempts so far, and the log of sleep durations. -/
structure CamWorld where
  now : Nat
  reads : Nat
  openAttempts : Nat
  sleeps : List Nat
  deriving DecidableEq

/-- Embedding of the `Camera` controller state (`src/brain/util/cv/cam/cv_cam.py`):
the capture liveness flag and frame counter live on the `Video2D` base
(not under `src/`; modelled from the spec, see `Camera.init`), the reinit
parameters and frame cache on `Camera` itself. -/
structure Camera where
  is_opened : Bool
  current_frame_id : Nat
  source_id : Nat
  reinit_duration : Nat
  reinit_interval : Nat
  frames : BaseList Frame2D
  deriving DecidableEq

namespace Camera

/-- The retry loop of `Camera.reinitialize_camera` (`while current_time <
end_time`).  Each iteration makes one open attempt; if the capture opens, the
single probe read is performed and the loop breaks with its result; otherwise
the handle is released, the clock is re-read, and when still before the
deadline the loop sleeps `min(end_time - current_time, reinit_interval)` and
retries.  The loop-condition variable `current_time` is only updated on the
failure path, exactly as in the source.  Recursion is on explicit fuel; the
caller supplies more fuel than the deadline allows iterations. -/
def reinitLoop (env : CamEnv) (interval endT : Nat) :
    Nat → Camera → CamWorld → Nat → Bool → Option Nat →
    Camera × CamWorld × Bool × Option Nat
  | 0, cam, w, _, ret, frame => (cam, w, ret, frame)
  | fuel + 1, cam, w, current_time, ret, frame =>
    if current_time < endT then
      let k := w.openAttempts
      let w' : CamWorld :=
        { w with openAttempts := k + 1, now := w.now + env.openDur k }
      let opened := env.openOk k
      let cam' : Camera := { cam with is_opened := opened }
      if opened then
        let (r, f) := env.probeRead k
        (cam', w', r, f)
      else
        let ct := w'.now
        if ct < endT then
          let s := min (endT - ct) interval
          let w'' : CamWorld :=
            { w' with now := w'.now + s, sleeps := w'.sleeps ++ [s] }
          reinitLoop env interval endT fuel cam' w'' ct ret frame
        else
          reinitLoop env interval endT fuel cam' w' ct ret frame
    else (cam, w, ret, frame)

/-- `Camera.reinitialize_camera`: release the handle, set the deadline
`end_time = now + reinit_duration`, run the retry loop, and afterwards raise
`RuntimeError` unless the capture is opened, the probe flag is true and the
probe buffer is present; on success return the probe buffer. -/
def reinitialize_camera (env : CamEnv) (cam : Camera) (w : CamWorld) :
    Camera × CamWorld × Except PyError Nat :=
  let cam₀ : Camera := { cam with is_opened := false }
  let startT := w.now
  let endT := startT + cam.reinit_duration
  match reinitLoop env cam.reinit_interval endT (cam.reinit_duration + 2)
      cam₀ w startT false none with
  | (cam₁, w₁, ret, frame) =>
    match frame with
    | some buf =>
      if cam₁.is_opened ∧ ret then (cam₁, w₁, .ok buf)
      else (cam₁, w₁, .error .RuntimeError)
    | none => (cam₁, w₁, .error .RuntimeError)

/-- `Camera.read`: attempt the direct capture read; classify it as a failure
when it raises, returns a false flag, or returns no buffer.  A failure routes
through `reinitialize_camera` (whose `RuntimeError` propagates).  On success
the frame counter is incremented and the buffer wrapped into a `Frame2D`
carrying the new counter value. -/
def read (env : CamEnv) (cam : Camera) (w : CamWorld) :
    Camera × CamWorld × Except PyError Frame2D :=
  let dr := env.directRead w.reads
  let w₀ : CamWorld := { w with reads := w.reads + 1 }
  let error : Bool :=
    match dr with
    | none => true
    | some (r, f) => !r || f.isNone
  if error then
    match reinitialize_camera env cam w₀ with
    | (cam', w', .error e) => (cam', w', .error e)
    | (cam', w', .ok buf) =>
      let cam'' : Camera :=
        { cam' with current_frame_id := cam'.current_frame_id + 1 }
      (cam'', w', .ok ⟨cam''.current_frame_id, cam.source_id, buf⟩)
  else
    match dr with
    | some (true, some buf) =>
      let cam' : Camera :=
        { cam with current_frame_id := cam.current_frame_id + 1 }
      (cam', w₀, .ok ⟨cam'.current_frame_id, cam.source_id, buf⟩)
    | _ => (cam, w₀, .error .RuntimeError)

/-- `Camera.stream`: `while self.is_opened: read and append the frame to the
cache`; any exception from `read` (or the append) is re-raised as
`RuntimeError` and the loop exits permanently.  Fuel bounds the number of
iterations observed. -/
def stream (env : CamEnv) :
    Nat → Camera → CamWorld → Camera × CamWorld × Except PyError Unit
  | 0, cam, w => (cam, w, .ok ())
  | fuel + 1, cam, w =>
    if cam.is_opened then
      match read env cam w with
      | (cam', w', .error _) => (cam', w', .error .RuntimeError)
      | (cam', w', .ok f) =>
        match cam'.frames.append_item f "first" with
        | .ok fl => stream env fuel { cam' with frames := fl } w'
        | .error _ => (cam', w', .error .RuntimeError)
    else (cam, w, .ok ())

/-- `Camera.frame` (the cache's latest-frame accessor): `self.frames[-1]`
inside a `try` whose `except RuntimeError` clause wraps the error into a new
`RuntimeError`; any other exception kind propagates unchanged. -/
def frame (cam : Camera) : Except PyError Frame2D :=
  match cam.frames.get_item (-1) with
  | .ok f => .ok f
  | .error .RuntimeError => .error .RuntimeError
  | .error e => .error e

/-- `Camera.__init__`: reject a cache size below 1 with a `TypeError` (the
`isinstance` int check is enforced by typing here), then build the empty
`Frame2DList` cache with that maximum size.  Modelled from the spec: the
`Video2D` base (not under `src/`) holds the capture liveness flag and the
frame sequence counter, which "starts at 1" per frame, so the counter starts
at 0 and is incremented before each frame is built. -/
def init (a_source_id : Nat) (a_cache_size : Int)
    (a_reinit_duration a_reinit_interval : Nat) : Except PyError Camera :=
  if a_cache_size < 1 then .error .TypeError
  else
    match BaseList.init "Frame2DList" a_cache_size (none : Option (List Frame2D)) with
    | .ok fl =>
      .ok ⟨true, 0, a_source_id, a_reinit_duration, a_reinit_interval, fl⟩
    | .error e => .error e

end Camera

/-! ### Helper lemmas: capacity invariant of `BaseList` -/

/-- A successful `append_item` preserves the bound `length ≤ max_size` of a
bounded list with capacity at least 1, and the capacity itself. -/
theorem BaseList.append_item_inv {T : Type} {m : Int} (hm : 1 ≤ m)
    {l l' : BaseList T} {x : T} {s : String}
    (hmax : l.max_size = m) (hlen : (l.items.length : Int) ≤ m)
    (h : l.append_item x s = .ok l') :
    l'.max_size = m ∧ (l'.items.length : Int) ≤ m := by
  unfold append_item at h
  split at h
  · rename_i hc
    split at h
    · cases hl : l.items with
      | nil =>
        rw [hl] at h
        simp at h
      | cons a rest =>
        rw [hl] at h
        simp only [Except.ok.injEq] at h
        subst h
        refine ⟨hmax, ?_⟩
        have : l.items.length = rest.length + 1 := by rw [hl]; simp
        simp only [List.length_append, List.length_cons, List.length_nil]
        omega
    · split at h
      · cases hl : l.items with
        | nil =>
          rw [hl] at h
          simp at h
        | cons a rest =>
          rw [hl] at h
          simp only [Except.ok.injEq] at h
          subst h
          refine ⟨hmax, ?_⟩
          have h1 : l.items.length = rest.length + 1 := by rw [hl]; simp
          have h2 : (a :: rest).dropLast.length = rest.length := by
            simp [List.length_dropLast]
          simp only [List.length_append, h2, List.length_cons, List.length_nil]
          omega
      · simp at h
  · rename_i hc
    simp only [Except.ok.injEq] at h
    subst h
    refine ⟨hmax, ?_⟩
    have hne : m ≠ -1 := by omega
    rw [hmax] at hc
    push_neg at hc
    have := hc hne
    simp only [List.length_append, List.length_cons, List.length_nil]
    push_cast
    omega

/-- `append_item` with the default `"first"` strategy never raises on a
bounded list with capacity at least 1 that satisfies its bound, and the
result keeps the invariant. -/
theorem BaseList.append_item_first {T : Type} {m : Int} (hm : 1 ≤ m)
    {l : BaseList T} (x : T)
    (hmax : l.max_size = m) (hlen : (l.items.length : Int) ≤ m) :
    ∃ l', l.append_item x "first" = .ok l' ∧ l'.max_size = m ∧
      (l'.items.length : Int) ≤ m := by
  unfold append_item
  split
  · rename_i hc
    cases hl : l.items with
    | nil =>
      exfalso
      rw [hmax, hl] at hc
      simp at hc
      omega
    | cons a rest =>
      refine ⟨_, rfl, hmax, ?_⟩
      have : l.items.length = rest.length + 1 := by rw [hl]; simp
      simp only [List.length_append, List.length_cons, List.length_nil]
      omega
  · rename_i hc
    refine ⟨_, rfl, hmax, ?_⟩
    rw [hmax] at hc
    push_neg at hc
    have := hc (by omega)
    simp only [List.length_append, List.length_cons, List.length_nil]
    push_cast
    omega

/-- Batch append preserves the capacity invariant, whether or not it raises
part-way through. -/
theorem BaseList.append_seq_inv {T : Type} {m : Int} (hm : 1 ≤ m) :
    ∀ (xs : List T) (s : String) (l : BaseList T),
      l.max_size = m → (l.items.length : Int) ≤ m →
      (l.append_seq xs s).1.max_size = m ∧
        ((l.append_seq xs s).1.items.length : Int) ≤ m := by
  intro xs
  induction xs with
  | nil => intro s l hmax hlen; exact ⟨hmax, hlen⟩
  | cons x rest ih =>
    intro s l hmax hlen
    unfold append_seq
    cases h : l.append_item x s with
    | ok l' =>
      obtain ⟨h1, h2⟩ := BaseList.append_item_inv hm hmax hlen h
      simpa using ih s l' h1 h2
    | error e => exact ⟨hmax, hlen⟩

/-- Batch append with the default `"first"` strategy never raises under the
invariant. -/
theorem BaseList.append_seq_first {T : Type} {m : Int} (hm : 1 ≤ m) :
    ∀ (xs : List T) (l : BaseList T),
      l.max_size = m → (l.items.length : Int) ≤ m →
      (l.append_seq xs "first").2 = none ∧
        (l.append_seq xs "first").1.max_size = m ∧
        ((l.append_seq xs "first").1.items.length : Int) ≤ m := by
  intro xs
  induction xs with
  | nil => intro l hmax hlen; exact ⟨rfl, hmax, hlen⟩
  | cons x rest ih =>
    intro l hmax hlen
    obtain ⟨l', he, h1, h2⟩ := BaseList.append_item_first hm x hmax hlen
    unfold append_seq
    rw [he]
    exact ih l' h1 h2

/-- Any sequence of append operations preserves the capacity invariant. -/
theorem BaseList.run_ops_inv {T : Type} {m : Int} (hm : 1 ≤ m) :
    ∀ (ops : List (LOp T)) (l : BaseList T),
      l.max_size = m → (l.items.length : Int) ≤ m →
      (l.run_ops ops).1.max_size = m ∧
        ((l.run_ops ops).1.items.length : Int) ≤ m := by
  intro ops
  induction ops with
  | nil => intro l hmax hlen; exact ⟨hmax, hlen⟩
  | cons op rest ih =>
    intro l hmax hlen
    cases op with
    | one x s =>
      unfold run_ops
      cases h : l.append_item x s with
      | ok l' =>
        obtain ⟨h1, h2⟩ := BaseList.append_item_inv hm hmax hlen h
        simpa using ih l' h1 h2
      | error e => exact ⟨hmax, hlen⟩
    | batch xs s =>
      unfold run_ops
      obtain ⟨h1, h2⟩ := BaseList.append_seq_inv hm xs s l hmax hlen
      rcases hp : l.append_seq xs s with ⟨l', err⟩
      rw [hp] at h1 h2
      cases err with
      | none => simpa using ih l' h1 h2
      | some e => exact ⟨h1, h2⟩

/-! ### Helper lemmas: `dict_set` and the capacity invariant of `BaseDict` -/

/-- Assigning a key grows the association list by at most one entry. -/
theorem dict_set_length_le {K V : Type} [DecidableEq K]
    (xs : List (K × V)) (k : K) (v : V) :
    (dict_set xs k v).length ≤ xs.length + 1 := by
  induction xs with
  | nil => simp [dict_set]
  | cons p rest ih =>
    obtain ⟨k', v'⟩ := p
    unfold dict_set
    split
    · simp
    · simpa using Nat.succ_le_succ ih

/-- Assigning an existing key leaves the length unchanged. -/
theorem dict_set_length_of_mem {K V : Type} [DecidableEq K]
    (xs : List (K × V)) (k : K) (v : V) (h : dict_contains xs k = true) :
    (dict_set xs k v).length = xs.length := by
  induction xs with
  | nil => simp [dict_contains] at h
  | cons p rest ih =>
    obtain ⟨k', v'⟩ := p
    unfold dict_set
    split
    · simp
    · rename_i hne
      simp only [List.length_cons, Nat.succ_inj]
      apply ih
      simp only [dict_contains, List.any_cons, Bool.or_eq_true, decide_eq_true_eq] at h
      rcases h with h | h
      · exact absurd h hne
      · simpa [dict_contains] using h

/-- Assigning an existing key leaves the key sequence unchanged. -/
theorem dict_set_keys_of_mem {K V : Type} [DecidableEq K]
    (xs : List (K × V)) (k : K) (v : V) (h : dict_contains xs k = true) :
    (dict_set xs k v).map Prod.fst = xs.map Prod.fst := by
  induction xs with
  | nil => simp [dict_contains] at h
  | cons p rest ih =>
    obtain ⟨k', v'⟩ := p
    unfold dict_set
    split
    · simp
    · rename_i hne
      simp only [List.map_cons, List.cons.injEq]
      refine ⟨trivial, ?_⟩
      apply ih
      simp only [dict_contains, List.any_cons, Bool.or_eq_true, decide_eq_true_eq] at h
      rcases h with h | h
      · exact absurd h hne
      · simpa [dict_contains] using h

/-- Assigning an absent key appends the pair at the end. -/
theorem dict_set_of_not_mem {K V : Type} [DecidableEq K]
    (xs : List (K × V)) (k : K) (v : V) (h : dict_contains xs k = false) :
    dict_set xs k v = xs ++ [(k, v)] := by
  induction xs with
  | nil => simp [dict_set]
  | cons p rest ih =>
    obtain ⟨k', v'⟩ := p
    simp only [dict_contains, List.any_cons, Bool.or_eq_false_iff,
      decide_eq_false_iff_not] at h
    unfold dict_set
    rw [if_neg h.1]
    simp only [List.cons_append, List.cons.injEq]
    exact ⟨trivial, ih (by simpa [dict_contains] using h.2)⟩

/-- A successful dict `append_item` preserves the bound `length ≤ max_size`
of a bounded dict with capacity at least 1, and the capacity itself. -/
theorem BaseDict.dict_append_item_inv {K V : Type} [DecidableEq K] {m : Int}
    (hm : 1 ≤ m) {d d' : BaseDict K V} {k : K} {v : V} {s : String}
    (hmax : d.max_size = m) (hlen : (d.items.length : Int) ≤ m)
    (h : d.append_item k v s = .ok d') :
    d'.max_size = m ∧ (d'.items.length : Int) ≤ m := by
  unfold append_item at h
  split at h
  · rename_i hc
    split at h
    · cases hl : d.items with
      | nil =>
        rw [hl] at h
        simp at h
      | cons a rest =>
        rw [hl] at h
        simp only [Except.ok.injEq] at h
        subst h
        refine ⟨hmax, ?_⟩
        have h1 : d.items.length = rest.length + 1 := by rw [hl]; simp
        have h2 := dict_set_length_le rest k v
        simp only
        omega
    · split at h
      · cases hl : d.items with
        | nil =>
          rw [hl] at h
          simp at h
        | cons a rest =>
          rw [hl] at h
          simp only [Except.ok.injEq] at h
          subst h
          refine ⟨hmax, ?_⟩
          have h1 : d.items.length = rest.length + 1 := by rw [hl]; simp
          have h2 := dict_set_length_le (a :: rest).dropLast k v
          have h3 : (a :: rest).dropLast.length = rest.length := by
            simp [List.length_dropLast]
          simp only
          omega
      · simp at h
  · rename_i hc
    simp only [Except.ok.injEq] at h
    subst h
    refine ⟨hmax, ?_⟩
    rw [hmax] at hc
    push_neg at hc
    have hlt := hc (by omega)
    have h2 := dict_set_length_le d.items k v
    simp only
    omega

/-- Dict `append_item` with the default `"first"` strategy never raises under
the invariant, and preserves it. -/
theorem BaseDict.dict_append_item_first {K V : Type} [DecidableEq K] {m : Int}
    (hm : 1 ≤ m) {d : BaseDict K V} (k : K) (v : V)
    (hmax : d.max_size = m) (hlen : (d.items.length : Int) ≤ m) :
    ∃ d', d.append_item k v "first" = .ok d' ∧ d'.max_size = m ∧
      (d'.items.length : Int) ≤ m := by
  unfold append_item
  split
  · rename_i hc
    cases hl : d.items with
    | nil =>
      exfalso
      rw [hmax, hl] at hc
      simp at hc
      omega
    | cons a rest =>
      refine ⟨_, rfl, hmax, ?_⟩
      have h1 : d.items.length = rest.length + 1 := by rw [hl]; simp
      have h2 := dict_set_length_le rest k v
      simp only
      omega
  · rename_i hc
    refine ⟨_, rfl, hmax, ?_⟩
    rw [hmax] at hc
    push_neg at hc
    have hlt := hc (by omega)
    have h2 := dict_set_length_le d.items k v
    simp only
    omega

/-- Dict batch append preserves the capacity invariant, whether or not it
raises part-way through. -/
theorem BaseDict.dict_append_seq_inv {K V : Type} [DecidableEq K] {m : Int}
    (hm : 1 ≤ m) :
    ∀ (xs : List (K × V)) (s : String) (d : BaseDict K V),
      d.max_size = m → (d.items.length : Int) ≤ m →
      (d.append_seq xs s).1.max_size = m ∧
        ((d.append_seq xs s).1.items.length : Int) ≤ m := by
  intro xs
  induction xs with
  | nil => intro s d hmax hlen; exact ⟨hmax, hlen⟩
  | cons p rest ih =>
    obtain ⟨k, v⟩ := p
    intro s d hmax hlen
    unfold append_seq
    cases h : d.append_item k v s with
    | ok d' =>
      obtain ⟨h1, h2⟩ := BaseDict.dict_append_item_inv hm hmax hlen h
      simpa using ih s d' h1 h2
    | error e => exact ⟨hmax, hlen⟩

/-- Dict batch append with the default `"first"` strategy never raises under
the invariant. -/
theorem BaseDict.dict_append_seq_first {K V : Type} [DecidableEq K] {m : Int}
    (hm : 1 ≤ m) :
    ∀ (xs : List (K × V)) (d : BaseDict K V),
      d.max_size = m → (d.items.length : Int) ≤ m →
      (d.append_seq xs "first").2 = none ∧
        (d.append_seq xs "first").1.max_size = m ∧
        ((d.append_seq xs "first").1.items.length : Int) ≤ m := by
  intro xs
  induction xs with
  | nil => intro d hmax hlen; exact ⟨rfl, hmax, hlen⟩
  | cons p rest ih =>
    obtain ⟨k, v⟩ := p
    intro d hmax hlen
    obtain ⟨d', he, h1, h2⟩ := BaseDict.dict_append_item_first hm k v hmax hlen
    unfold append_seq
    rw [he]
    exact ih d' h1 h2

/-- Any sequence of dict append operations preserves the capacity
invariant. -/
theorem BaseDict.dict_run_ops_inv {K V : Type} [DecidableEq K] {m : Int}
    (hm : 1 ≤ m) :
    ∀ (ops : List (DOp K V)) (d : BaseDict K V),
      d.max_size = m → (d.items.length : Int) ≤ m →
      (d.run_ops ops).1.max_size = m ∧
        ((d.run_ops ops).1.items.length : Int) ≤ m := by
  intro ops
  induction ops with
  | nil => intro d hmax hlen; exact ⟨hmax, hlen⟩
  | cons op rest ih =>
    intro d hmax hlen
    cases op with
    | one k v s =>
      unfold run_ops
      cases h : d.append_item k v s with
      | ok d' =>
        obtain ⟨h1, h2⟩ := BaseDict.dict_append_item_inv hm hmax hlen h
        simpa using ih d' h1 h2
      | error e => exact ⟨hmax, hlen⟩
    | batch ks vs s =>
      unfold run_ops
      have hinv : (d.append_lists ks vs s).1.max_size = m ∧
          ((d.append_lists ks vs s).1.items.length : Int) ≤ m := by
        unfold append_lists
        split
        · exact ⟨hmax, hlen⟩
        · exact BaseDict.dict_append_seq_inv hm (ks.zip vs) s d hmax hlen
      rcases hp : d.append_lists ks vs s with ⟨d', err⟩
      rw [hp] at hinv
      cases err with
      | none => simpa using ih d' hinv.1 hinv.2
      | some e => exact hinv

/-! ### Helper lemmas: the reinitialization loop -/

/-- One unfolding of the retry loop with positive fuel. -/
theorem Camera.reinitLoop_succ (env : CamEnv) (interval endT fuel : Nat)
    (cam : Camera) (w : CamWorld) (current_time : Nat) (ret : Bool)
    (frame : Option Nat) :
    Camera.reinitLoop env interval endT (fuel + 1) cam w current_time ret frame =
      if current_time < endT then
        let k := w.openAttempts
        let w' : CamWorld :=
          { w with openAttempts := k + 1, now := w.now + env.openDur k }
        let opened := env.openOk k
        let cam' : Camera := { cam with is_opened := opened }
        if opened then
          let (r, f) := env.probeRead k
          (cam', w', r, f)
        else
          let ct := w'.now
          if ct < endT then
            let s := min (endT - ct) interval
            let w'' : CamWorld :=
              { w' with now := w'.now + s, sleeps := w'.sleeps ++ [s] }
            Camera.reinitLoop env interval endT fuel cam' w'' ct ret frame
          else
            Camera.reinitLoop env interval endT fuel cam' w' ct ret frame
      else (cam, w, ret, frame) := rfl

/-- The retry loop never touches the frame counter, the source id, the reinit
parameters or the frame cache. -/
theorem Camera.reinitLoop_state (env : CamEnv) (interval endT : Nat) :
    ∀ (fuel : Nat) (cam : Camera) (w : CamWorld) (ct : Nat) (ret : Bool)
      (frame : Option Nat),
      (Camera.reinitLoop env interval endT fuel cam w ct ret frame).1.current_frame_id
          = cam.current_frame_id ∧
      (Camera.reinitLoop env interval endT fuel cam w ct ret frame).1.source_id
          = cam.source_id ∧
      (Camera.reinitLoop env interval endT fuel cam w ct ret frame).1.frames
          = cam.frames := by
  intro fuel
  induction fuel with
  | zero => intro cam w ct ret frame; exact ⟨rfl, rfl, rfl⟩
  | succ fuel ih =>
    intro cam w ct ret frame
    rw [Camera.reinitLoop_succ]
    dsimp only
    split
    · split
      · rcases hpr : env.probeRead w.openAttempts with ⟨r, f⟩
        exact ⟨rfl, rfl, rfl⟩
      · split
        · exact ih _ _ _ _ _
        · exact ih _ _ _ _ _
    · exact ⟨rfl, rfl, rfl⟩

/-- `reinitialize_camera` never touches the frame counter. -/
theorem Camera.reinitialize_camera_frame_id (env : CamEnv) (cam : Camera)
    (w : CamWorld) :
    (Camera.reinitialize_camera env cam w).1.current_frame_id
      = cam.current_frame_id := by
  unfold reinitialize_camera
  dsimp only
  have h := Camera.reinitLoop_state env cam.reinit_interval
    (w.now + cam.reinit_duration) (cam.reinit_duration + 2)
    { cam with is_opened := false } w w.now false none
  rcases hp : Camera.reinitLoop env cam.reinit_interval
      (w.now + cam.reinit_duration) (cam.reinit_duration + 2)
      { cam with is_opened := false } w w.now false none with ⟨cam₁, w₁, ret, frame⟩
  rw [hp] at h
  dsimp only
  cases frame with
  | some buf =>
    dsimp only
    split
    · exact h.1
    · exact h.1
  | none => exact h.1

/-- When no open attempt ever succeeds, the retry loop ends with a false flag,
no frame, and a closed capture. -/
theorem Camera.reinitLoop_all_fail (env : CamEnv) (interval endT : Nat)
    (hopen : ∀ k, env.openOk k = false) :
    ∀ (fuel : Nat) (cam : Camera) (w : CamWorld) (ct : Nat),
      cam.is_opened = false →
      ∃ cam' w',
        Camera.reinitLoop env interval endT fuel cam w ct false none
          = (cam', w', false, none) ∧ cam'.is_opened = false := by
  intro fuel
  induction fuel with
  | zero => intro cam w ct hcam; exact ⟨cam, w, rfl, hcam⟩
  | succ fuel ih =>
    intro cam w ct hcam
    rw [Camera.reinitLoop_succ]
    dsimp only
    split
    · rw [hopen w.openAttempts]
      simp only [Bool.false_eq_true, if_false]
      split
      · exact ih _ _ _ rfl
      · exact ih _ _ _ rfl
    · exact ⟨cam, w, rfl, hcam⟩

/-- When no open attempt ever succeeds, `reinitialize_camera` raises
`RuntimeError` and leaves the capture closed. -/
theorem Camera.reinitialize_camera_all_fail (env : CamEnv) (cam : Camera)
    (w : CamWorld) (hopen : ∀ k, env.openOk k = false) :
    ∃ cam' w',
      Camera.reinitialize_camera env cam w
        = (cam', w', .error .RuntimeError) ∧ cam'.is_opened = false := by
  unfold reinitialize_camera
  dsimp only
  obtain ⟨cam', w', hloop, hcam'⟩ :=
    Camera.reinitLoop_all_fail env cam.reinit_interval
      (w.now + cam.reinit_duration) hopen (cam.reinit_duration + 2)
      { cam with is_opened := false } w w.now rfl
  rw [hloop]
  exact ⟨cam', w', rfl, hcam'⟩

/-- A successful `read` increments the frame counter by exactly one and stamps
the new value into the returned frame; a failed `read` leaves the counter
unchanged.  (The recovery path inherits this because `reinitialize_camera`
never touches the counter.) -/
theorem Camera.read_counter (env : CamEnv) (cam : Camera) (w : CamWorld) :
    (∀ cam' w' f, Camera.read env cam w = (cam', w', .ok f) →
       f.sequence_id = cam.current_frame_id + 1 ∧
       cam'.current_frame_id = cam.current_frame_id + 1)
    ∧ (∀ cam' w' e, Camera.read env cam w = (cam', w', .error e) →
       cam'.current_frame_id = cam.current_frame_id) := by
  have hre := Camera.reinitialize_camera_frame_id env cam
    { w with reads := w.reads + 1 }
  constructor
  · intro cam' w' f h
    unfold read at h
    dsimp only at h
    cases hdr : env.directRead w.reads with
    | none =>
      rw [hdr] at h
      dsimp only at h
      rcases hr : Camera.reinitialize_camera env cam { w with reads := w.reads + 1 }
        with ⟨camr, wr, res⟩
      rw [hr] at h hre
      cases res with
      | error e => simp at h
      | ok buf =>
        simp only [Prod.mk.injEq, Except.ok.injEq] at h
        rcases h with ⟨hh1, hh2, hh3⟩
        exact ⟨by simpa using hre, by simpa using hre⟩
    | some p =>
      obtain ⟨r, fo⟩ := p
      rw [hdr] at h
      cases r with
      | false =>
        dsimp only at h
        rcases hr : Camera.reinitialize_camera env cam { w with reads := w.reads + 1 }
          with ⟨camr, wr, res⟩
        rw [hr] at h hre
        cases res with
        | error e => simp at h
        | ok buf =>
          simp only [Prod.mk.injEq, Except.ok.injEq] at h
          rcases h with ⟨hh1, hh2, hh3⟩
          exact ⟨by simpa using hre, by simpa using hre⟩
      | true =>
        cases fo with
        | none =>
          dsimp only at h
          rcases hr : Camera.reinitialize_camera env cam { w with reads := w.reads + 1 }
            with ⟨camr, wr, res⟩
          rw [hr] at h hre
          cases res with
          | error e => simp at h
          | ok buf =>
            simp only [Prod.mk.injEq, Except.ok.injEq] at h
            rcases h with ⟨hh1, hh2, hh3⟩
            exact ⟨by simpa using hre, by simpa using hre⟩
        | some buf =>
          simp only [Option.isNone_some, Bool.not_true, Bool.or_false,
            Bool.false_eq_true, if_false, Prod.mk.injEq, Except.ok.injEq] at h
          rcases h with ⟨hh1, hh2, hh3⟩
          exact ⟨by subst hh3; rfl, by subst hh1; rfl⟩
  · intro cam' w' e h
    unfold read at h
    dsimp only at h
    cases hdr : env.directRead w.reads with
    | none =>
      rw [hdr] at h
      dsimp only at h
      rcases hr : Camera.reinitialize_camera env cam { w with reads := w.reads + 1 }
        with ⟨camr, wr, res⟩
      rw [hr] at h hre
      cases res with
      | error e' =>
        simp only [Prod.mk.injEq, Except.error.injEq] at h
        rcases h with ⟨hh1, hh2, hh3⟩
        simpa using hre
      | ok buf => simp at h
    | some p =>
      obtain ⟨r, fo⟩ := p
      rw [hdr] at h
      cases r with
      | false =>
        dsimp only at h
        rcases hr : Camera.reinitialize_camera env cam { w with reads := w.reads + 1 }
          with ⟨camr, wr, res⟩
        rw [hr] at h hre
        cases res with
        | error e' =>
          simp only [Prod.mk.injEq, Except.error.injEq] at h
          rcases h with ⟨hh1, hh2, hh3⟩
          simpa using hre
        | ok buf => simp at h
      | true =>
        cases fo with
        | none =>
          dsimp only at h
          rcases hr : Camera.reinitialize_camera env cam { w with reads := w.reads + 1 }
            with ⟨camr, wr, res⟩
          rw [hr] at h hre
          cases res with
          | error e' =>
            simp only [Prod.mk.injEq, Except.error.injEq] at h
            rcases h with ⟨hh1, hh2, hh3⟩
            simpa using hre
          | ok buf => simp at h
        | some buf =>
          simp only [Option.isNone_some, Bool.not_true, Bool.or_false,
            Bool.false_eq_true, if_false, Prod.mk.injEq] at h
          simp at h

/-- One unfolding of the stream loop with positive fuel. -/
theorem Camera.stream_succ (env : CamEnv) (fuel : Nat) (cam : Camera)
    (w : CamWorld) :
    Camera.stream env (fuel + 1) cam w =
      if cam.is_opened then
        match Camera.read env cam w with
        | (cam', w', .error _) => (cam', w', .error .RuntimeError)
        | (cam', w', .ok f) =>
          match cam'.frames.append_item f "first" with
          | .ok fl => Camera.stream env fuel { cam' with frames := fl } w'
          | .error _ => (cam', w', .error .RuntimeError)
      else (cam, w, .ok ()) := rfl

/-- When the direct read fails and no open attempt ever succeeds, `read`
raises `RuntimeError` and leaves the capture closed. -/
theorem Camera.read_all_fail (env : CamEnv) (cam : Camera) (w : CamWorld)
    (hopen : ∀ k, env.openOk k = false)
    (hdr : ∀ buf, env.directRead w.reads ≠ some (true, some buf)) :
    ∃ cam' w',
      Camera.read env cam w = (cam', w', .error .RuntimeError) ∧
      cam'.is_opened = false := by
  obtain ⟨camr, wr, hrr, hro⟩ :=
    Camera.reinitialize_camera_all_fail env cam { w with reads := w.reads + 1 }
      hopen
  refine ⟨camr, wr, ?_, hro⟩
  unfold read
  dsimp only
  cases hdrc : env.directRead w.reads with
  | none =>
    dsimp only
    rw [hrr]
    rfl
  | some p =>
    obtain ⟨r, fo⟩ := p
    cases r with
    | false =>
      dsimp only
      rw [hrr]
      rfl
    | true =>
      cases fo with
      | none =>
        dsimp only
        rw [hrr]
        rfl
      | some buf => exact absurd hdrc (hdr buf)

/-! ### Claim theorems -/

/-- C1 (counterexample): with an environment whose open attempt succeeds at
once but whose single probe read reports failure (`(false, none)`), and with
`reinit_duration = 5` so the deadline (100 + 5) is far from the clock at the
probe (101), `reinitialize_camera` does NOT close the handle, sleep and retry:
it returns from the loop with exactly one open attempt, an empty sleep log, a
still-open handle, and raises `RuntimeError` — refuting the claim that on a
probe failure before the deadline the controller sleeps
`min(deadline - now, reinit_interval)` and retries. -/
theorem c1_probe_failure_counterexample :
    Camera.reinitialize_camera
        ⟨fun _ => some (false, none), fun _ => true, fun _ => 1,
          fun _ => (false, none)⟩
        ⟨true, 0, 7, 5, 1, ⟨"FRAME2DLIST", 10, []⟩⟩ ⟨100, 0, 0, []⟩
      = (⟨true, 0, 7, 5, 1, ⟨"FRAME2DLIST", 10, []⟩⟩, ⟨101, 0, 1, []⟩,
          .error .RuntimeError)
    ∧ (101 : Nat) < 100 + 5 :=
  ⟨rfl, by norm_num⟩

/-- C5: `Camera.frame` on an empty frame cache raises a bare `IndexError`
(the `except RuntimeError` clause in the source can never catch what
`self._items[-1]` raises, contradicting the method's own docstring, which
promises a `RuntimeError` naming the empty cache); after exactly one frame has
been appended, it returns that exact frame. -/
theorem c5_latest_frame :
    Camera.frame ⟨true, 0, 7, 5, 1, ⟨"FRAME2DLIST", 10, []⟩⟩
        = .error .IndexError
    ∧ Camera.frame ⟨true, 1, 7, 5, 1, ⟨"FRAME2DLIST", 10, [⟨1, 7, 42⟩]⟩⟩
        = .ok ⟨1, 7, 42⟩ :=
  ⟨rfl, rfl⟩

/-- C6 (counterexample): the bounded list takes no eviction-policy token at
construction — construction with capacity 2 succeeds while no token exists to
validate — and an unknown token `"bogus"` is accepted silently by two appends
while the list is below capacity, failing with `ValueError` only at the third
append, when an eviction is first needed.  This refutes the claim that an
unknown token fails at construction time rather than at evict time. -/
theorem c6_policy_token_counterexample :
    BaseList.init "ObjectList" 2 (none : Option (List Nat))
        = .ok ⟨"OBJECTLIST", 2, []⟩
    ∧ (⟨"OBJECTLIST", 2, []⟩ : BaseList Nat).append_item 1 "bogus"
        = .ok ⟨"OBJECTLIST", 2, [1]⟩
    ∧ (⟨"OBJECTLIST", 2, [1]⟩ : BaseList Nat).append_item 2 "bogus"
        = .ok ⟨"OBJECTLIST", 2, [1, 2]⟩
    ∧ (⟨"OBJECTLIST", 2, [1, 2]⟩ : BaseList Nat).append_item 3 "bogus"
        = .error .ValueError :=
  ⟨rfl, rfl, rfl, rfl⟩

/-- C7 (counterexample): constructing a `BaseList` with capacity 0 (below 1
and not the unbounded sentinel -1) succeeds with no configuration error and
yields a usable collection object; the failure surfaces only at the first
append, and as an `IndexError` (pop from an empty list), not a configuration
error.  This refutes the claim that such a construction fails. -/
theorem c7_capacity_counterexample :
    BaseList.init "ObjectList" 0 (none : Option (List Nat))
        = .ok ⟨"OBJECTLIST", 0, []⟩
    ∧ (⟨"OBJECTLIST", 0, []⟩ : BaseList Nat).append_item 5 "first"
        = .error .IndexError :=
  ⟨rfl, rfl⟩

/-- C8: appending the four items `a, b, c, d` in order to a freshly
constructed bounded list of capacity 3 yields `[b, c, d]` under the
evict-oldest (`"first"`) policy and `[a, b, d]` under the evict-newest
(`"last"`) policy — appending `d` evicts `c`, the current last element,
before inserting `d` — with no error raised. -/
theorem c8_eviction_order (T : Type) (a b c d : T) :
    BaseList.init "ObjectList" 3 (none : Option (List T))
        = .ok ⟨"OBJECTLIST", 3, []⟩
    ∧ (⟨"OBJECTLIST", 3, []⟩ : BaseList T).run_ops [.batch [a, b, c, d] "first"]
        = (⟨"OBJECTLIST", 3, [b, c, d]⟩, none)
    ∧ (⟨"OBJECTLIST", 3, []⟩ : BaseList T).run_ops [.batch [a, b, c, d] "last"]
        = (⟨"OBJECTLIST", 3, [a, b, d]⟩, none) :=
  ⟨rfl, rfl, rfl⟩

/-- C1 (amended): during `reinitialize_camera`, whenever an open attempt
succeeds but the single probe read reports failure (flag false or buffer
absent) and the deadline has not yet passed (`reinit_duration ≥ 1`, probed on
the first iteration), the retry loop exits immediately: exactly one open
attempt is made, no sleep is recorded, the handle is left open, and
`reinitialize_camera` raises `RuntimeError`.  The close/sleep/retry path
applies only to failed opens. -/
theorem c1_probe_failure_amended (env : CamEnv) (cam : Camera) (w : CamWorld)
    (r : Bool) (f : Option Nat)
    (hd : 1 ≤ cam.reinit_duration)
    (hopen : env.openOk w.openAttempts = true)
    (hprobe : env.probeRead w.openAttempts = (r, f))
    (hfail : r = false ∨ f = none) :
    Camera.reinitialize_camera env cam w =
      ({ cam with is_opened := true },
       { w with openAttempts := w.openAttempts + 1,
                now := w.now + env.openDur w.openAttempts },
       .error .RuntimeError) := by
  unfold Camera.reinitialize_camera
  dsimp only
  have hfuel : cam.reinit_duration + 2 = cam.reinit_duration + 1 + 1 := rfl
  rw [hfuel, Camera.reinitLoop_succ]
  dsimp only
  rw [if_pos (show w.now < w.now + cam.reinit_duration by omega)]
  rw [hopen]
  rw [if_pos rfl]
  have hp1 : (env.probeRead w.openAttempts).1 = r := by rw [hprobe]
  have hp2 : (env.probeRead w.openAttempts).2 = f := by rw [hprobe]
  rw [hp1, hp2]
  dsimp only
  rcases hfail with hr | hf
  · subst hr
    cases f with
    | none => rfl
    | some buf =>
      dsimp only
      rw [if_neg]
      simp
  · subst hf
    rfl

/-- C1 (witness): the amended theorem applied to a concrete environment whose
first open succeeds, whose probe returns `(true, none)`, and whose deadline is
4 seconds away. -/
theorem c1_probe_failure_witness :
    Camera.reinitialize_camera
        ⟨fun _ => some (true, some 1), fun _ => true, fun _ => 2,
          fun _ => (true, none)⟩
        ⟨false, 3, 9, 4, 2, ⟨"F", 5, []⟩⟩ ⟨50, 2, 6, [3]⟩
      = (⟨true, 3, 9, 4, 2, ⟨"F", 5, []⟩⟩, ⟨52, 2, 7, [3]⟩,
          .error .RuntimeError) :=
  c1_probe_failure_amended
    ⟨fun _ => some (true, some 1), fun _ => true, fun _ => 2,
      fun _ => (true, none)⟩
    ⟨false, 3, 9, 4, 2, ⟨"F", 5, []⟩⟩ ⟨50, 2, 6, [3]⟩ true none
    (by decide) rfl rfl (Or.inr rfl)

/-- C2: for every bounded collection constructed with capacity `m ≥ 1` — both
the list and the keyed variant, including construction with initial items —
and every sequence of append operations (single items or batches, any
removal-strategy tokens), the length never exceeds the capacity.  Since the
sequence `ops` is universally quantified, the bound holds after every
operation: the state after any prefix of a longer sequence is the state
`run_ops` reaches on that prefix. -/
theorem c2_capacity_invariant (T K V : Type) [DecidableEq K] (m : Int)
    (hm : 1 ≤ m) :
    (∀ (name : String) (xs : List T) (ops : List (LOp T)),
       ∃ l₀ : BaseList T, BaseList.init name m (some xs) = .ok l₀ ∧
         ((l₀.run_ops ops).1.items.length : Int) ≤ m)
    ∧ (∀ (name : String) (ks : List K) (vs : List V), ks.length = vs.length →
       ∀ ops : List (DOp K V),
         ∃ d₀ : BaseDict K V,
           BaseDict.init name m (some ks) (some vs) = .ok d₀ ∧
             ((d₀.run_ops ops).1.items.length : Int) ≤ m) := by
  constructor
  · intro name xs ops
    obtain ⟨hnone, hmax, hlen⟩ :=
      BaseList.append_seq_first hm xs ⟨pyUnderscore (pyUpper name), m, []⟩ rfl
        (by simp; omega)
    unfold BaseList.init
    dsimp only
    rcases hps : BaseList.append_seq ⟨pyUnderscore (pyUpper name), m, []⟩ xs "first"
      with ⟨l₀, err⟩
    rw [hps] at hnone hmax hlen
    dsimp only at hnone hmax hlen
    subst hnone
    exact ⟨l₀, rfl, (BaseList.run_ops_inv hm ops l₀ hmax hlen).2⟩
  · intro name ks vs hlen ops
    obtain ⟨hnone, hmax, hl⟩ :=
      BaseDict.dict_append_seq_first (K := K) (V := V) hm (ks.zip vs)
        ⟨pyUnderscore (pyUpper name), m, []⟩ rfl (by simp; omega)
    unfold BaseDict.init
    dsimp only
    unfold BaseDict.append_lists
    rw [if_neg (by omega)]
    rcases hps : BaseDict.append_seq ⟨pyUnderscore (pyUpper name), m, []⟩ (ks.zip vs) "first"
      with ⟨d₀, err⟩
    rw [hps] at hnone hmax hl
    dsimp only at hnone hmax hl
    subst hnone
    exact ⟨d₀, rfl, (BaseDict.dict_run_ops_inv hm ops d₀ hmax hl).2⟩

/-- C2 (witness): the invariant theorem applied at capacity 2 with three
initial items and one further append. -/
theorem c2_capacity_invariant_witness :
    ∃ l₀ : BaseList Nat, BaseList.init "x" 2 (some [5, 6, 7]) = .ok l₀ ∧
      ((l₀.run_ops [.one 8 "first"]).1.items.length : Int) ≤ 2 :=
  (c2_capacity_invariant Nat Nat Nat 2 (by decide)).1 "x" [5, 6, 7]
    [.one 8 "first"]

/-- C3: frame `sequence_id` values are strictly increasing by exactly 1 per
successful `read` — the returned frame carries `current_frame_id + 1`, which
becomes the new counter value — while a failed `read` leaves the counter
unchanged; `reinitialize_camera` never touches the counter (so a read that
recovers through it still stamps previous maximum + 1); and a freshly
constructed camera starts its counter at 0, making the first successful
read's `sequence_id` equal to 1. -/
theorem c3_sequence_id_monotone (env : CamEnv) (cam : Camera) (w : CamWorld) :
    (∀ cam' w' f, Camera.read env cam w = (cam', w', .ok f) →
       f.sequence_id = cam.current_frame_id + 1 ∧
       cam'.current_frame_id = cam.current_frame_id + 1)
    ∧ (∀ cam' w' e, Camera.read env cam w = (cam', w', .error e) →
       cam'.current_frame_id = cam.current_frame_id)
    ∧ (Camera.reinitialize_camera env cam w).1.current_frame_id
        = cam.current_frame_id
    ∧ (∀ (src : Nat) (c : Int) (d i : Nat) (cam₀ : Camera),
       Camera.init src c d i = .ok cam₀ → cam₀.current_frame_id = 0) := by
  refine ⟨(Camera.read_counter env cam w).1, (Camera.read_counter env cam w).2,
    Camera.reinitialize_camera_frame_id env cam w, ?_⟩
  intro src c d i cam₀ h
  unfold Camera.init at h
  split at h
  · simp at h
  · unfold BaseList.init at h
    dsimp only at h
    simp only [Except.ok.injEq] at h
    rw [← h]

/-- C3 (witness): the monotonicity theorem applied to a concrete environment
whose direct read succeeds with buffer 5: the fresh camera (counter 0)
returns a frame with `sequence_id = 1` and its counter becomes 1. -/
theorem c3_sequence_id_witness :
    (⟨1, 7, 5⟩ : Frame2D).sequence_id = 0 + 1 ∧
    (⟨true, 1, 7, 5, 1, ⟨"F", 10, []⟩⟩ : Camera).current_frame_id = 0 + 1 :=
  (c3_sequence_id_monotone
      ⟨fun _ => some (true, some 5), fun _ => true, fun _ => 1,
        fun _ => (true, some 6)⟩
      ⟨true, 0, 7, 5, 1, ⟨"F", 10, []⟩⟩ ⟨100, 0, 0, []⟩).1
    ⟨true, 1, 7, 5, 1, ⟨"F", 10, []⟩⟩ ⟨100, 1, 0, []⟩ ⟨1, 7, 5⟩ rfl

/-- C4: when the capture's open attempts never succeed (so the retry loop
runs out its deadline without a successful probe), `read` terminates with the
fatal `RuntimeError` (the code-level stand-in for the spec's
`FatalCaptureError`), the capture is left closed (the code's observable
`Failed` condition), and the stream loop driving `read` halts at exactly that
state — the returned world `w'` is final, so no further open attempts occur
afterwards. -/
theorem c4_deadline_fatal (env : CamEnv) (cam : Camera) (w : CamWorld)
    (hopen : ∀ k, env.openOk k = false)
    (hdr : ∀ buf, env.directRead w.reads ≠ some (true, some buf)) :
    ∃ cam' w',
      Camera.read env cam w = (cam', w', .error .RuntimeError) ∧
      cam'.is_opened = false ∧
      (∀ fuel, cam.is_opened = true →
        Camera.stream env (fuel + 1) cam w = (cam', w', .error .RuntimeError)) := by
  obtain ⟨cam', w', hread, hclosed⟩ := Camera.read_all_fail env cam w hopen hdr
  refine ⟨cam', w', hread, hclosed, ?_⟩
  intro fuel hopened
  rw [Camera.stream_succ, if_pos hopened, hread]

/-- C4 (witness): the fatal-deadline theorem applied to a concrete
environment whose direct read reports failure and whose opens always fail. -/
theorem c4_deadline_fatal_witness :
    ∃ cam' w',
      Camera.read
          ⟨fun _ => some (false, none), fun _ => false, fun _ => 1,
            fun _ => (true, some 9)⟩
          ⟨true, 0, 7, 5, 1, ⟨"F", 10, []⟩⟩ ⟨100, 0, 0, []⟩
        = (cam', w', .error .RuntimeError) ∧
      cam'.is_opened = false ∧
      (∀ fuel,
        (⟨true, 0, 7, 5, 1, ⟨"F", 10, []⟩⟩ : Camera).is_opened = true →
        Camera.stream
            ⟨fun _ => some (false, none), fun _ => false, fun _ => 1,
              fun _ => (true, some 9)⟩
            (fuel + 1) ⟨true, 0, 7, 5, 1, ⟨"F", 10, []⟩⟩ ⟨100, 0, 0, []⟩
          = (cam', w', .error .RuntimeError)) :=
  c4_deadline_fatal
    ⟨fun _ => some (false, none), fun _ => false, fun _ => 1,
      fun _ => (true, some 9)⟩
    ⟨true, 0, 7, 5, 1, ⟨"F", 10, []⟩⟩ ⟨100, 0, 0, []⟩
    (fun _ => rfl) (fun buf h => by simp at h)

/-- Negative in-range indices resolve to `index + length` in `pyGet`. -/
theorem pyGet_neg {T : Type} (xs : List T) (i : Int)
    (hlo : -(xs.length : Int) ≤ i) (hhi : i ≤ -1) :
    ∃ hb : (i + (xs.length : Int)).toNat < xs.length,
      pyGet xs i = .ok (xs.get ⟨(i + (xs.length : Int)).toNat, hb⟩) := by
  have hb : (i + (xs.length : Int)).toNat < xs.length := by omega
  refine ⟨hb, ?_⟩
  unfold pyGet
  dsimp only
  have hif : (if i < 0 then i + (xs.length : Int) else i) = i + xs.length :=
    if_pos (by omega)
  simp only [hif]
  rw [dif_pos (show (0 : Int) ≤ i + xs.length ∧
    i + (xs.length : Int) < xs.length by omega)]

/-- Negative in-range indices resolve to `index + length` in `pySet`. -/
theorem pySet_neg {T : Type} (xs : List T) (i : Int) (x : T)
    (hlo : -(xs.length : Int) ≤ i) (hhi : i ≤ -1) :
    pySet xs i x = .ok (xs.set (i + (xs.length : Int)).toNat x) := by
  unfold pySet
  dsimp only
  have hif : (if i < 0 then i + (xs.length : Int) else i) = i + xs.length :=
    if_pos (by omega)
  simp only [hif]
  rw [if_pos (show (0 : Int) ≤ i + xs.length ∧
    i + (xs.length : Int) < xs.length by omega)]

/-- `pyGet` raises `IndexError` exactly on the out-of-range indices
`j ≥ length` and `j < -length`. -/
theorem pyGet_error_iff {T : Type} (xs : List T) (j : Int) :
    pyGet xs j = .error .IndexError ↔
      ((xs.length : Int) ≤ j ∨ j < -(xs.length : Int)) := by
  unfold pyGet
  dsimp only
  by_cases hj : j < 0
  · have hif : (if j < 0 then j + (xs.length : Int) else j) = j + xs.length :=
      if_pos hj
    simp only [hif]
    by_cases hcc : (0 : Int) ≤ j + xs.length ∧
        j + (xs.length : Int) < xs.length
    · rw [dif_pos hcc]
      constructor
      · intro h
        exact absurd h (by simp)
      · intro h
        exfalso
        rcases h with h | h <;> omega
    · rw [dif_neg hcc]
      constructor
      · intro _
        have h0 : ¬ (0 : Int) ≤ j + xs.length := fun h0 => hcc ⟨h0, by omega⟩
        right
        omega
      · intro _
        rfl
  · have hif : (if j < 0 then j + (xs.length : Int) else j) = j := if_neg hj
    simp only [hif]
    by_cases hcc : (0 : Int) ≤ j ∧ j < (xs.length : Int)
    · rw [dif_pos hcc]
      constructor
      · intro h
        exact absurd h (by simp)
      · intro h
        exfalso
        rcases h with h | h <;> omega
    · rw [dif_neg hcc]
      constructor
      · intro _
        have h0 : ¬ j < (xs.length : Int) := fun h0 => hcc ⟨by omega, h0⟩
        left
        omega
      · intro _
        rfl

/-- C6 (amended): the eviction-policy token is supplied per append call, not
at construction (there is no construction-time token to validate).  Any
token — known or unknown — is accepted silently whenever no eviction is
needed (unbounded list or below capacity), and an unknown token (lowercased
to neither `"first"` nor `"last"`) raises `ValueError` exactly when the list
is bounded and full, i.e. at evict time. -/
theorem c6_policy_token_amended (T : Type) (l : BaseList T) (x : T)
    (s : String) :
    ((l.max_size = -1 ∨ (l.items.length : Int) < l.max_size) →
       l.append_item x s = .ok { l with items := l.items ++ [x] })
    ∧ (l.max_size ≠ -1 → (l.items.length : Int) ≥ l.max_size →
        pyLower s ≠ "first" → pyLower s ≠ "last" →
        l.append_item x s = .error .ValueError) := by
  constructor
  · intro h
    unfold BaseList.append_item
    rw [if_neg]
    rintro ⟨h1, h2⟩
    rcases h with h | h
    · exact h1 h
    · omega
  · intro h1 h2 hf hl
    unfold BaseList.append_item
    rw [if_pos ⟨h1, h2⟩, if_neg hf, if_neg hl]

/-- C6 (witness): the amended theorem applied to a below-capacity list with
the unknown token `"weird"`: the append succeeds silently. -/
theorem c6_policy_token_witness :
    (⟨"L", 3, [1]⟩ : BaseList Nat).append_item 2 "weird"
      = .ok ⟨"L", 3, [1, 2]⟩ :=
  (c6_policy_token_amended Nat ⟨"L", 3, [1]⟩ 2 "weird").1 (Or.inr (by decide))

/-- C7 (amended): `BaseList` construction validates nothing about the
capacity — with no initial items it succeeds for every `max_size`, and for a
capacity below 1 (other than the -1 sentinel) the failure surfaces only at
the first append, as an `IndexError` from popping an empty list.  The
`Camera` constructor, by contrast, rejects a cache size below 1 with a
`TypeError` at construction. -/
theorem c7_capacity_validation_amended (T : Type) (name : String) (m : Int) :
    (∃ l : BaseList T, BaseList.init name m (none : Option (List T)) = .ok l ∧
       l.max_size = m ∧ l.items = [])
    ∧ (m < 1 → m ≠ -1 → ∀ x : T,
        (⟨pyUnderscore (pyUpper name), m, []⟩ : BaseList T).append_item x "first"
          = .error .IndexError)
    ∧ (∀ (src : Nat) (c : Int) (d i : Nat), c < 1 →
        Camera.init src c d i = .error .TypeError) := by
  refine ⟨⟨⟨pyUnderscore (pyUpper name), m, []⟩, rfl, rfl, rfl⟩, ?_, ?_⟩
  · intro hm hne x
    unfold BaseList.append_item
    rw [if_pos ⟨hne, by simp; omega⟩]
    rw [if_pos (show pyLower "first" = "first" from rfl)]
  · intro src c d i hc
    unfold Camera.init
    rw [if_pos hc]

/-- C7 (witness): the amended theorem applied at capacity 0: the first append
fails with `IndexError`, and the camera constructor rejects cache size 0 with
`TypeError`. -/
theorem c7_capacity_validation_witness :
    (⟨"L", 0, []⟩ : BaseList Nat).append_item 5 "first" = .error .IndexError
    ∧ Camera.init 7 0 5 1 = .error .TypeError :=
  ⟨(c7_capacity_validation_amended Nat "L" 0).2.1 (by decide) (by decide) 5,
   (c7_capacity_validation_amended Nat "L" 0).2.2 7 0 5 1 (by decide)⟩

/-- C9: in the keyed bounded collection, setting an existing key replaces its
value in place — same length, same key sequence, hence no eviction and no
insertion for capacity purposes — while setting a new key on a full bounded
collection routes through the append path and evicts the oldest inserted key
(the head) before inserting; concretely, with capacity 2 and evict-oldest,
setting `(1,10), (2,20), (3,30)` into a fresh collection leaves exactly
`{2 ↦ 20, 3 ↦ 30}`. -/
theorem c9_keyed_set_semantics (K V : Type) [DecidableEq K]
    (d : BaseDict K V) (k : K) (v : V) :
    (dict_contains d.items k = true →
       d.set_item k v = .ok { d with items := dict_set d.items k v } ∧
       (dict_set d.items k v).length = d.items.length ∧
       (dict_set d.items k v).map Prod.fst = d.items.map Prod.fst)
    ∧ (dict_contains d.items k = false → 0 < d.max_size →
        (d.items.length : Int) ≥ d.max_size →
        d.set_item k v = .ok { d with items := dict_set d.items.tail k v })
    ∧ ((⟨"D", 2, []⟩ : BaseDict Nat Nat).set_item 1 10 = .ok ⟨"D", 2, [(1, 10)]⟩
       ∧ (⟨"D", 2, [(1, 10)]⟩ : BaseDict Nat Nat).set_item 2 20
           = .ok ⟨"D", 2, [(1, 10), (2, 20)]⟩
       ∧ (⟨"D", 2, [(1, 10), (2, 20)]⟩ : BaseDict Nat Nat).set_item 3 30
           = .ok ⟨"D", 2, [(2, 20), (3, 30)]⟩) := by
  refine ⟨?_, ?_, rfl, rfl, rfl⟩
  · intro hmem
    refine ⟨?_, dict_set_length_of_mem _ _ _ hmem, dict_set_keys_of_mem _ _ _ hmem⟩
    unfold BaseDict.set_item
    rw [if_pos (Or.inl hmem)]
  · intro hmem hpos hfull
    unfold BaseDict.set_item
    rw [if_neg, if_pos ⟨by simp [hmem], hpos⟩]
    · unfold BaseDict.append_item
      rw [if_pos ⟨by omega, hfull⟩]
      rw [if_pos (show pyLower "first" = "first" from rfl)]
      cases hl : d.items with
      | nil =>
        exfalso
        rw [hl] at hfull
        simp at hfull
        omega
      | cons a rest => rfl
    · rintro (h | h)
      · rw [hmem] at h
        cases h
      · omega

/-- C9 (witness): the keyed-set theorem applied to a full capacity-2
collection at an existing key: the value is replaced in place with no
eviction. -/
theorem c9_keyed_set_witness :
    (⟨"D", 2, [(1, 10), (2, 20)]⟩ : BaseDict Nat Nat).set_item 1 99
        = .ok ⟨"D", 2, [(1, 99), (2, 20)]⟩
    ∧ (dict_set [(1, 10), (2, 20)] 1 (99 : Nat)).length
        = ([(1, 10), (2, 20)] : List (Nat × Nat)).length
    ∧ (dict_set [(1, 10), (2, 20)] 1 (99 : Nat)).map Prod.fst
        = ([(1, 10), (2, 20)] : List (Nat × Nat)).map Prod.fst :=
  (c9_keyed_set_semantics Nat Nat ⟨"D", 2, [(1, 10), (2, 20)]⟩ 1 99).1 rfl

/-- C10: on a bounded list holding `n` items, every index `i` with
`-n ≤ i ≤ -1` is accepted: `get_item i` returns the element at position
`i + n` and `set_item i x` replaces that element; and indexed access raises
`IndexError` exactly when `i ≥ n` or `i < -n`. -/
theorem c10_negative_index (T : Type) (l : BaseList T) (i : Int)
    (hlo : -(l.items.length : Int) ≤ i) (hhi : i ≤ -1) :
    (∃ hb : (i + (l.items.length : Int)).toNat < l.items.length,
       l.get_item i = .ok (l.items.get ⟨(i + (l.items.length : Int)).toNat, hb⟩))
    ∧ (∀ x, l.set_item i x
        = .ok { l with items := l.items.set (i + (l.items.length : Int)).toNat x })
    ∧ (∀ j : Int, l.get_item j = .error .IndexError ↔
        ((l.items.length : Int) ≤ j ∨ j < -(l.items.length : Int))) := by
  refine ⟨pyGet_neg l.items i hlo hhi, ?_, fun j => pyGet_error_iff l.items j⟩
  intro x
  unfold BaseList.set_item
  rw [pySet_neg l.items i x hlo hhi]

/-- C10 (witness): the negative-index theorem applied at index -2 of a
three-element list: the middle element is replaced. -/
theorem c10_negative_index_witness :
    (⟨"L", -1, [10, 20, 30]⟩ : BaseList Nat).set_item (-2) 99
      = .ok ⟨"L", -1, [10, 99, 30]⟩ :=
  ((c10_negative_index Nat ⟨"L", -1, [10, 20, 30]⟩ (-2) (by decide)
    (by decide)).2.1) 99
